import Mathlib

/-!
Verification development for the demand-driven polling and coalescing
subsystem of the bet99 super-node repository.

The definitions below are a shallow embedding of the TypeScript source:

* `InMemoryCache` embeds `InMemoryCacheService`
  (src/super-node/src/infrastructure/cache/redis-cache.service.ts).
  JavaScript `Map` objects are embedded as association lists over `String`
  keys (only key membership and key-to-value association are relevant to the
  properties proved here, not iteration order). `Date.now()` timestamps are
  `Nat` milliseconds, passed explicitly to every operation that reads the
  clock in the source.
* `CoalState`/`coalStep` embed the scheduler's `RequestCoalescer`
  (src/super-node/src/infrastructure/providers/exchange/exchange-polling.scheduler.ts).
  The asynchronous promise machinery is embedded as a small-step transition
  system: a `call` event is the synchronous body of `coalesce` (JavaScript is
  single threaded, so the map lookup and map insert of `coalesce` form one
  atomic step), and a `settle` event is the settlement of the underlying
  promise together with its `finally` cleanup and the resolution of every
  subscriber.  Ghost fields (`running`, `settledLog`, `deliveredLog`) record
  fetcher executions, settlements and results handed to callers.
* `CacheSysState`/`cacheStep` embed `InMemoryCacheService.getOrSet`,
  `coalesce` and `refreshInBackground` in the same small-step style, with the
  store attached.  A flight records the `ttlSeconds` of the call that created
  it, because the source writes the cache with the originator's ttl.
* `WorkerState` embeds `OddsFetchWorker` (the exchange scheduler's worker;
  the worker in
  src/super-node/src/infrastructure/scheduling/data-prefetch.scheduler.ts
  has the identical `enqueue`/`drain` logic, so the embedding is parametrised
  by the queue-entry type and covers both).  The synchronous `drain` loop is
  `drainLoop`; `inflightFetches` is a ghost counter incremented exactly where
  the source starts `this.fetchOdds(...)` and decremented in its `finally`.
* `OddsTierState`/`oddsStep` embed `ExchangePollingScheduler.pollHotGmidOdds`
  together with the worker and the `TICK_COMPLETE` listener.  A `tick` event
  is one timer callback; its hot list is the event's parameter (the result of
  `getHotGmids` at that instant).  With the in-memory cache every cache
  operation settles within the microtask queue, which drains before the next
  timer macrotask, so a timer callback is one atomic step.
* `markGmidHot`, `getHotGmids`, `hotLoop` embed the hot-GMID registry of the
  exchange scheduler over the in-memory cache.
* `fetchOddsModel`, `getCoalescedOddsModel`, `pollMatchListsModel` embed the
  cache-writing bodies of `OddsFetchWorker.fetchOdds`,
  `ExchangePollingScheduler.getCoalescedOdds` and
  `ExchangePollingScheduler.pollMatchLists`, with the provider response as an
  explicit parameter (`none` embeds the provider returning `null`) and a
  ghost list of the cache keys written.
* `RedisState`/`redisStep` embed `RedisCacheService.getOrSet` over a plain
  TTL key/value store (`setex` semantics: a key lives strictly less than
  `ttl` seconds).  `factRunning` records factory executions in flight; the
  source has no in-flight map, so a `call` that misses always starts a new
  factory execution for its caller.
* `ExSchedulerState.start`/`stop` and `PrefetchSchedulerState.start`/`stop`
  embed the lifecycle methods of `ExchangePollingScheduler` and
  `DataPrefetchScheduler`: `start` flips `started`, runs the bootstrap and
  installs the tier timers; `stop` cancels the timers, detaches the worker
  listeners and clears `started`.  Fresh timer handles come from a counter.
-/

-- ───────────────────────── association-list map ─────────────────────────

/-- Lookup in an association list embedding a JavaScript `Map`. -/
def mlookup {β : Type} : List (String × β) → String → Option β
  | [], _ => none
  | (k, v) :: rest, key => if k = key then some v else mlookup rest key

/-- Removal of every binding of a key, embedding `Map.delete`. -/
def merase {β : Type} : List (String × β) → String → List (String × β)
  | [], _ => []
  | (k, v) :: rest, key =>
      if k = key then merase rest key else (k, v) :: merase rest key

/-- Insertion or replacement of a binding, embedding `Map.set`. -/
def minsert {β : Type} (m : List (String × β)) (key : String) (v : β) :
    List (String × β) :=
  (key, v) :: merase m key

/-- Key list of the map, embedding `Map.keys`. -/
def mkeys {β : Type} (m : List (String × β)) : List String :=
  m.map (fun p => p.1)

-- ───────────────────────── glob matching ─────────────────────────

/-- Matching of a `.*` wildcard: the rest of the pattern (as a matcher `f`)
may start at any suffix of the text. -/
def globStarAux (f : List Char → Bool) : List Char → Bool
  | [] => f []
  | c :: cs => f (c :: cs) || globStarAux f cs

/-- Glob matching with `*` and `?`, embedding the regex that
`InMemoryCacheService.keys` builds from the pattern (`*` becomes `.*` and
`?` becomes `.`; the remaining characters of the patterns used by the
repository, such as `xhot:gmid:`, carry no regex metacharacters and match
literally).  A `*` consumes any number of characters, i.e. the remaining
pattern matches some suffix of the text. -/
def globMatch : List Char → List Char → Bool
  | [], [] => true
  | [], _ :: _ => false
  | p :: ps, cs =>
      if p = '*' then globStarAux (globMatch ps) cs
      else
        match cs with
        | [] => false
        | c :: cs2 =>
            if p = '?' then globMatch ps cs2
            else decide (p = c) && globMatch ps cs2

-- ───────────────────────── in-memory cache service ─────────────────────────

/-- Stale grace multiplier of `InMemoryCacheService` (source constant
`STALE_MULTIPLIER`). -/
def STALE_MULTIPLIER : Nat := 2

/-- Cache entry of `InMemoryCacheService` (`value`, `freshUntil`,
`staleUntil`, in milliseconds). -/
structure CacheEntry (V : Type) where
  value : V
  freshUntil : Nat
  staleUntil : Nat
deriving DecidableEq, Repr

/-- Store map of `InMemoryCacheService` (its `inflight` map lives in the
transition system `CacheSysState` below). -/
structure InMemoryCache (V : Type) where
  store : List (String × CacheEntry V)
deriving DecidableEq, Repr

/-- Embedding of `InMemoryCacheService.get`: a completely expired entry is
purged and `null` is returned; an entry inside the stale window is served.
Returns the value and the possibly-updated cache. -/
def InMemoryCache.get {V : Type} (c : InMemoryCache V) (now : Nat)
    (key : String) : Option V × InMemoryCache V :=
  match mlookup c.store key with
  | none => (none, c)
  | some entry =>
      if entry.staleUntil < now then (none, ⟨merase c.store key⟩)
      else (some entry.value, c)

/-- Embedding of `InMemoryCacheService.set`: `freshUntil = now + ttl·1000`,
`staleUntil = now + ttl·1000·STALE_MULTIPLIER` (ttl in seconds). -/
def InMemoryCache.set {V : Type} (c : InMemoryCache V) (now : Nat)
    (key : String) (v : V) (ttlSeconds : Nat) : InMemoryCache V :=
  ⟨minsert c.store key
    ⟨v, now + ttlSeconds * 1000, now + ttlSeconds * 1000 * STALE_MULTIPLIER⟩⟩

/-- Embedding of the store side of `InMemoryCacheService.del`. -/
def InMemoryCache.del {V : Type} (c : InMemoryCache V) (key : String) :
    InMemoryCache V :=
  ⟨merase c.store key⟩

/-- Embedding of `InMemoryCacheService.keys`: every key currently present in
the store map is matched against the glob; no expiry check, no purge. -/
def InMemoryCache.keys {V : Type} (c : InMemoryCache V) (pattern : String) :
    List String :=
  (mkeys c.store).filter (fun k => globMatch pattern.toList k.toList)

-- ───────────────────────── fetch results ─────────────────────────

/-- Settlement result of a factory/fetcher promise: fulfilled with a value,
or rejected (the `Nat` tags distinct rejection reasons). -/
inductive FetchResult (V : Type) where
  | ok (v : V)
  | fail (e : Nat)
deriving DecidableEq, Repr

-- ───────────────────────── generic runner ─────────────────────────

/-- Runs a list of events through a partial step function. -/
def runSteps {σ ε : Type} (step : σ → ε → Option σ) : σ → List ε → Option σ
  | s, [] => some s
  | s, e :: rest =>
      match step s e with
      | none => none
      | some s2 => runSteps step s2 rest

-- ───────────────────────── RequestCoalescer ─────────────────────────

/-- State of the scheduler's `RequestCoalescer`.  `inFlight` is the source's
map from key to the in-flight promise (a promise is identified by the `Nat`
id of its fetcher execution); `running` is a ghost log of fetcher executions
started and not yet settled; `settledLog` records each execution's
settlement result; `waiters` are the callers subscribed to an execution's
promise; `deliveredLog` records `(caller, execution, result)` for every
result handed to a caller. -/
structure CoalState (V : Type) where
  inFlight : List (String × Nat)
  nextFid : Nat
  running : List (String × Nat)
  settledLog : List (Nat × FetchResult V)
  waiters : List (Nat × Nat)
  deliveredLog : List (Nat × Nat × FetchResult V)
deriving DecidableEq, Repr

/-- Events of the coalescer system: a caller invoking `coalesce(key, f)`
(its synchronous body), and the settlement of an in-flight fetcher. -/
inductive CoalEvent (V : Type) where
  | call (cid : Nat) (key : String)
  | settle (key : String) (fid : Nat) (r : FetchResult V)
deriving DecidableEq, Repr

/-- Embedding of the body of `RequestCoalescer.coalesce`: piggyback on the
existing in-flight promise, or start a new fetcher execution and index it. -/
def coalCall {V : Type} (s : CoalState V) (cid : Nat) (key : String) :
    CoalState V :=
  match mlookup s.inFlight key with
  | some fid => { s with waiters := s.waiters ++ [(cid, fid)] }
  | none =>
      { s with
        inFlight := minsert s.inFlight key s.nextFid,
        running := s.running ++ [(key, s.nextFid)],
        waiters := s.waiters ++ [(cid, s.nextFid)],
        nextFid := s.nextFid + 1 }

/-- Waiters subscribed to execution `fid`. -/
def waitersOn (ws : List (Nat × Nat)) (fid : Nat) : List (Nat × Nat) :=
  match ws with
  | [] => []
  | w :: rest =>
      if w.2 = fid then w :: waitersOn rest fid else waitersOn rest fid

/-- Waiters not subscribed to execution `fid`. -/
def waitersOff (ws : List (Nat × Nat)) (fid : Nat) : List (Nat × Nat) :=
  match ws with
  | [] => []
  | w :: rest =>
      if w.2 = fid then waitersOff rest fid else w :: waitersOff rest fid

/-- Removal of a ghost running-execution record. -/
def removeRun (rs : List (String × Nat)) (key : String) (fid : Nat) :
    List (String × Nat) :=
  match rs with
  | [] => []
  | p :: rest =>
      if p.1 = key ∧ p.2 = fid then removeRun rest key fid
      else p :: removeRun rest key fid

/-- Embedding of the settlement of the promise indexed for `key`: the
`finally` handler deletes the in-flight slot, and every subscriber receives
the settlement result.  Only the execution currently indexed can settle. -/
def coalSettle {V : Type} (s : CoalState V) (key : String) (fid : Nat)
    (r : FetchResult V) : Option (CoalState V) :=
  match mlookup s.inFlight key with
  | none => none
  | some f =>
      if f = fid then
        some { inFlight := merase s.inFlight key,
               nextFid := s.nextFid,
               running := removeRun s.running key fid,
               settledLog := s.settledLog ++ [(fid, r)],
               waiters := waitersOff s.waiters fid,
               deliveredLog := s.deliveredLog ++
                 (waitersOn s.waiters fid).map (fun w => (w.1, fid, r)) }
      else none

/-- Step function of the coalescer system. -/
def coalStep {V : Type} (s : CoalState V) : CoalEvent V → Option (CoalState V)
  | .call cid key => some (coalCall s cid key)
  | .settle key fid r => coalSettle s key fid r

/-- Initial coalescer state: empty in-flight map, nothing running. -/
def coalInit {V : Type} : CoalState V := ⟨[], 0, [], [], [], []⟩

/-- Fetcher executions currently running for a key (ghost view). -/
def runningFor (rs : List (String × Nat)) (key : String) : List Nat :=
  match rs with
  | [] => []
  | p :: rest =>
      if p.1 = key then p.2 :: runningFor rest key else runningFor rest key

-- ───────────────────── in-memory cache getOrSet system ─────────────────────

/-- Whether a subscriber awaits the result (`getOrSet` case 3) or is the
fire-and-forget background refresh of case 2, whose failure is swallowed. -/
inductive WaitMode where
  | block
  | background
deriving DecidableEq, Repr

/-- An in-flight factory execution of `InMemoryCacheService.coalesce`: its
id and the `ttlSeconds` of the call that created it (the source stores the
result with the originator's ttl). -/
structure Flight where
  fid : Nat
  ttlSeconds : Nat
deriving DecidableEq, Repr

/-- A caller subscribed to a factory execution. -/
structure CacheWaiter where
  cid : Nat
  fid : Nat
  mode : WaitMode
deriving DecidableEq, Repr

/-- A result handed to a caller: `srcFlight = none` when it was served from
the store, `some fid` when it came from factory execution `fid`. -/
structure CacheDelivery (V : Type) where
  cid : Nat
  srcFlight : Option Nat
  result : FetchResult V
deriving DecidableEq, Repr

/-- State of `InMemoryCacheService` with its `store` and `inflight` maps,
plus the ghost logs described for `CoalState`. -/
structure CacheSysState (V : Type) where
  cache : InMemoryCache V
  inFlight : List (String × Flight)
  nextFid : Nat
  running : List (String × Nat)
  waiters : List CacheWaiter
  delivered : List (CacheDelivery V)
deriving DecidableEq, Repr

/-- Embedding of `InMemoryCacheService.coalesce` (body up to its first
suspension): join the existing in-flight factory, or start a new one. -/
def cacheCoalesce {V : Type} (s : CacheSysState V) (cid : Nat) (key : String)
    (ttl : Nat) (mode : WaitMode) : CacheSysState V :=
  match mlookup s.inFlight key with
  | some f => { s with waiters := s.waiters ++ [⟨cid, f.fid, mode⟩] }
  | none =>
      { s with
        inFlight := minsert s.inFlight key ⟨s.nextFid, ttl⟩,
        running := s.running ++ [(key, s.nextFid)],
        waiters := s.waiters ++ [⟨cid, s.nextFid, mode⟩],
        nextFid := s.nextFid + 1 }

/-- Embedding of the synchronous body of `InMemoryCacheService.getOrSet`:
case 1 serves a fresh entry, case 2 serves a stale entry and fires
`refreshInBackground` (which coalesces with `background` mode), case 3
coalesces with `block` mode (the raw `store.get` is used, so a fully
expired entry also reaches case 3, without being purged). -/
def getOrSetStep {V : Type} (s : CacheSysState V) (cid : Nat) (key : String)
    (now ttl : Nat) : CacheSysState V :=
  match mlookup s.cache.store key with
  | some entry =>
      if now ≤ entry.freshUntil then
        { s with delivered := s.delivered ++ [⟨cid, none, .ok entry.value⟩] }
      else if now ≤ entry.staleUntil then
        let s2 := cacheCoalesce s cid key ttl .background
        { s2 with delivered := s2.delivered ++ [⟨cid, none, .ok entry.value⟩] }
      else
        cacheCoalesce s cid key ttl .block
  | none => cacheCoalesce s cid key ttl .block

/-- Waiters of execution `fid` that await its result (block mode). -/
def blockWaitersOn (ws : List CacheWaiter) (fid : Nat) : List CacheWaiter :=
  match ws with
  | [] => []
  | w :: rest =>
      if w.fid = fid ∧ w.mode = .block then w :: blockWaitersOn rest fid
      else blockWaitersOn rest fid

/-- Waiters not subscribed to execution `fid`. -/
def cacheWaitersOff (ws : List CacheWaiter) (fid : Nat) : List CacheWaiter :=
  match ws with
  | [] => []
  | w :: rest =>
      if w.fid = fid then cacheWaitersOff rest fid
      else w :: cacheWaitersOff rest fid

/-- Embedding of the settlement of the factory promise built in
`InMemoryCacheService.coalesce`: on fulfilment the `then` handler stores the
value with the flight's ttl at settlement time; the `finally` handler
deletes the in-flight slot; blocking subscribers receive the result, and a
rejection reaches only them (background subscribers swallow it). -/
def cacheSettle {V : Type} (s : CacheSysState V) (key : String) (fid : Nat)
    (r : FetchResult V) (now : Nat) : Option (CacheSysState V) :=
  match mlookup s.inFlight key with
  | none => none
  | some f =>
      if f.fid = fid then
        some { cache := (match r with
                 | .ok v => s.cache.set now key v f.ttlSeconds
                 | .fail _ => s.cache),
               inFlight := merase s.inFlight key,
               nextFid := s.nextFid,
               running := removeRun s.running key fid,
               waiters := cacheWaitersOff s.waiters fid,
               delivered := s.delivered ++
                 (blockWaitersOn s.waiters fid).map
                   (fun w => ⟨w.cid, some fid, r⟩) }
      else none

/-- Events of the cache system. -/
inductive CacheEvent (V : Type) where
  | getOrSet (cid : Nat) (key : String) (now ttl : Nat)
  | settle (key : String) (fid : Nat) (r : FetchResult V) (now : Nat)
deriving DecidableEq, Repr

/-- Step function of the cache system. -/
def cacheStep {V : Type} (s : CacheSysState V) :
    CacheEvent V → Option (CacheSysState V)
  | .getOrSet cid key now ttl => some (getOrSetStep s cid key now ttl)
  | .settle key fid r now => cacheSettle s key fid r now

/-- Initial cache-system state: empty store and in-flight map. -/
def cacheInit {V : Type} : CacheSysState V := ⟨⟨[]⟩, [], 0, [], [], []⟩

-- ───────────────────────── odds fetch worker ─────────────────────────

/-- Worker pool concurrency cap (source constant `MAX_CONCURRENCY`). -/
def MAX_CONCURRENCY : Nat := 5

/-- A hot GMID entry dispatched to the worker. -/
structure HotGmidEntry where
  gmid : String
  sid : Nat
deriving DecidableEq, Repr

/-- State of `OddsFetchWorker`: its queue, `activeCount`, `processing` flag,
a ghost counter of provider fetches started and not completed, and a ghost
counter of `TICK_COMPLETE` emissions. -/
structure WorkerState (α : Type) where
  queue : List α
  active : Nat
  processing : Bool
  inflightFetches : Nat
  ticks : Nat
deriving DecidableEq, Repr

/-- The `while` loop of `OddsFetchWorker.drain`: shift entries off the queue
and start a fetch for each while `activeCount < MAX_CONCURRENCY`.  Returns
the remaining queue, the new active count and the number of fetches
started. -/
def drainLoop {α : Type} : List α → Nat → Nat → List α × Nat × Nat
  | [], active, started => ([], active, started)
  | e :: rest, active, started =>
      if active < MAX_CONCURRENCY then drainLoop rest (active + 1) (started + 1)
      else (e :: rest, active, started)

/-- Embedding of `OddsFetchWorker.drain`. -/
def WorkerState.drain {α : Type} [DecidableEq α] (s : WorkerState α) :
    WorkerState α :=
  if s.processing = true ∧ s.queue = [] ∧ s.active = 0 then
    { s with processing := false, ticks := s.ticks + 1 }
  else
    let r := drainLoop s.queue s.active 0
    let s2 : WorkerState α :=
      { s with processing := true, queue := r.1, active := r.2.1,
               inflightFetches := s.inflightFetches + r.2.2 }
    if r.1 = ([] : List α) ∧ r.2.1 = 0 then
      { s2 with processing := false, ticks := s2.ticks + 1 }
    else s2

/-- Embedding of `OddsFetchWorker.enqueue` (the `FETCH_ODDS` listener). -/
def WorkerState.enqueue {α : Type} [DecidableEq α] (s : WorkerState α)
    (entries : List α) : WorkerState α :=
  WorkerState.drain { s with queue := s.queue ++ entries }

/-- Embedding of the completion of one started fetch: the `finally` handler
decrements `activeCount` and drains again.  Only possible while a fetch is
outstanding. -/
def WorkerState.fetchDone {α : Type} [DecidableEq α] (s : WorkerState α) :
    Option (WorkerState α) :=
  if s.active = 0 then none
  else some (WorkerState.drain
    { s with active := s.active - 1, inflightFetches := s.inflightFetches - 1 })

/-- Events of the worker system. -/
inductive WorkerEvent (α : Type) where
  | enqueue (entries : List α)
  | fetchDone
deriving DecidableEq, Repr

/-- Step function of the worker system. -/
def workerStep {α : Type} [DecidableEq α] (s : WorkerState α) :
    WorkerEvent α → Option (WorkerState α)
  | .enqueue entries => some (s.enqueue entries)
  | .fetchDone => s.fetchDone

/-- Initial worker state: idle. -/
def workerInit {α : Type} : WorkerState α := ⟨[], 0, false, 0, 0⟩

-- ───────────────────────── odds tier scheduler ─────────────────────────

/-- State of the odds tier of `ExchangePollingScheduler`: the
`oddsPollingActive` flag, the worker, and a ghost log of the hot batches
dispatched to the worker. -/
structure OddsTierState where
  oddsPollingActive : Bool
  worker : WorkerState HotGmidEntry
  dispatched : List (List HotGmidEntry)
deriving DecidableEq, Repr

/-- Embedding of one `pollHotGmidOdds` timer callback, whose hot list is the
parameter: skip while `oddsPollingActive`; return on an empty hot set; else
set the flag and emit `FETCH_ODDS` to the worker.  The `TICK_COMPLETE`
listener clears the flag whenever the worker emits the event (observed here
as its `ticks` counter increasing). -/
def oddsTick (s : OddsTierState) (hot : List HotGmidEntry) : OddsTierState :=
  if s.oddsPollingActive then s
  else if hot = [] then s
  else
    let w2 := s.worker.enqueue hot
    { oddsPollingActive := if s.worker.ticks < w2.ticks then false else true,
      worker := w2,
      dispatched := s.dispatched ++ [hot] }

/-- Embedding of a fetch completion while the scheduler listens to the
worker: the `TICK_COMPLETE` listener clears `oddsPollingActive` when the
drain signals the tick is done. -/
def oddsFetchDone (s : OddsTierState) : Option OddsTierState :=
  match s.worker.fetchDone with
  | none => none
  | some w2 =>
      some { oddsPollingActive :=
               if s.worker.ticks < w2.ticks then false else s.oddsPollingActive,
             worker := w2,
             dispatched := s.dispatched }

/-- Events of the odds tier. -/
inductive OddsEvent where
  | tick (hot : List HotGmidEntry)
  | fetchDone
deriving DecidableEq, Repr

/-- Step function of the odds tier. -/
def oddsStep (s : OddsTierState) : OddsEvent → Option OddsTierState
  | .tick hot => some (oddsTick s hot)
  | .fetchDone => oddsFetchDone s

/-- Initial odds-tier state: flag down, worker idle. -/
def oddsInit : OddsTierState := ⟨false, workerInit, []⟩

-- ───────────────────────── hot GMID registry ─────────────────────────

/-- Hot key namespace of the exchange scheduler (source constant
`HOT_GMID_PREFIX`). -/
def HOT_GMID_MARK : String := "xhot:gmid:"

/-- Cache key of a hot GMID record (`EXCHANGE_CACHE_KEYS.hotGmid`). -/
def hotGmidKey (gmid : String) : String := HOT_GMID_MARK ++ gmid

/-- Hot key scan pattern (`EXCHANGE_CACHE_KEYS.hotGmidPattern`). -/
def hotGmidGlob : String := HOT_GMID_MARK ++ "*"

/-- Embedding of `key.replace(HOT_GMID_PREFIX, "")` for the keys returned by
the hot pattern scan (each such key starts with the namespace, so the first
occurrence removed by `replace` is that head). -/
def stripHot (k : String) : String :=
  if HOT_GMID_MARK.toList.isPrefixOf k.toList then
    ⟨k.toList.drop HOT_GMID_MARK.toList.length⟩
  else k

/-- Payload of a hot GMID record (`{gmid, sid, ts}`); `sid = none` embeds a
legacy record stored without a sport id. -/
structure HotPayload where
  gmid : String
  sid : Option Nat
  ts : Nat
deriving DecidableEq, Repr

/-- Embedding of `ExchangePollingScheduler.markGmidHot`: writes the hot
record with TTL `oddsHotTtl` (seconds) through `cache.set`. -/
def markGmidHot (c : InMemoryCache HotPayload) (now : Nat) (gmid : String)
    (sid : Nat) (oddsHotTtl : Nat) : InMemoryCache HotPayload :=
  c.set now (hotGmidKey gmid) ⟨gmid, some sid, now⟩ oddsHotTtl

/-- Sport id chosen by the body of the `getHotGmids` loop: the stored sid
when `raw` is an object carrying one, and the fallback sid 4 otherwise
(legacy record without sid, or `get` returned `null`). -/
def hotSidOf (raw : Option HotPayload) : Nat :=
  match raw with
  | some p =>
      match p.sid with
      | some sid => sid
      | none => 4
  | none => 4

/-- The per-key loop of `getHotGmids`: `cache.get` each scanned key (which
lazily purges a fully expired record), derive the gmid from the key, and
push an entry with `hotSidOf` of the raw record — an entry is pushed for
every scanned key, whatever `get` returned. -/
def hotLoop (now : Nat) :
    List String → InMemoryCache HotPayload →
    List HotGmidEntry × InMemoryCache HotPayload
  | [], c => ([], c)
  | k :: rest, c =>
      let r := c.get now k
      let entry : HotGmidEntry := ⟨stripHot k, hotSidOf r.1⟩
      let r2 := hotLoop now rest r.2
      (entry :: r2.1, r2.2)

/-- Embedding of `ExchangePollingScheduler.getHotGmids`: scan the hot key
pattern, then run the per-key loop.  Returns the entries and the
possibly-purged cache. -/
def getHotGmids (c : InMemoryCache HotPayload) (now : Nat) :
    List HotGmidEntry × InMemoryCache HotPayload :=
  hotLoop now (c.keys hotGmidGlob) c

/-- The gmids of a hot enumeration. -/
def hotGmidsOf (l : List HotGmidEntry) : List String :=
  l.map (fun e => e.gmid)

-- ───────────────────────── null-response handlers ─────────────────────────

/-- Odds cache key (`EXCHANGE_CACHE_KEYS.matchOdds`). -/
def matchOddsKey (gmid : String) : String := "exchange:odds:" ++ gmid

/-- Match list cache key (`EXCHANGE_CACHE_KEYS.matchList`). -/
def matchListKey (sid : Nat) : String := "exchange:matches:" ++ toString sid

/-- Odds tier cache TTL in seconds (`EXCHANGE_CACHE_TTL.MATCH_ODDS`). -/
def MATCH_ODDS_TTL : Nat := 2

/-- Match list cache TTL in seconds (`EXCHANGE_CACHE_TTL.MATCH_LIST`). -/
def MATCH_LIST_TTL : Nat := 120

/-- Sport ids polled for match lists (source constant `POLL_SPORT_IDS`). -/
def POLL_SPORT_IDS : List Nat := [4, 1, 2]

/-- Embedding of the body of `OddsFetchWorker.fetchOdds` given the provider
response (`none` embeds `null`): the cache is written only when the response
is a non-empty list.  Returns the success flag, the cache, and the ghost
list of keys written. -/
def fetchOddsModel {M : Type} (c : InMemoryCache (List M)) (now : Nat)
    (gmid : String) (resp : Option (List M)) :
    Bool × InMemoryCache (List M) × List String :=
  match resp with
  | none => (false, c, [])
  | some data =>
      if 0 < data.length then
        (true, c.set now (matchOddsKey gmid) data MATCH_ODDS_TTL,
         [matchOddsKey gmid])
      else (false, c, [])

/-- Embedding of the factory body of
`ExchangePollingScheduler.getCoalescedOdds`: the response is returned to the
caller, and the cache is written only when it is a non-empty list. -/
def getCoalescedOddsModel {M : Type} (c : InMemoryCache (List M)) (now : Nat)
    (gmid : String) (resp : Option (List M)) :
    Option (List M) × InMemoryCache (List M) × List String :=
  match resp with
  | none => (none, c, [])
  | some data =>
      if 0 < data.length then
        (some data, c.set now (matchOddsKey gmid) data MATCH_ODDS_TTL,
         [matchOddsKey gmid])
      else (some data, c, [])

/-- The per-sport loop of `ExchangePollingScheduler.pollMatchLists`: the
cache is written only when the provider response for the sport is not
`null`. -/
def pollLoop {D : Type} (now : Nat) (resp : Nat → Option D) :
    List Nat → InMemoryCache D → InMemoryCache D × List String
  | [], c => (c, [])
  | sid :: rest, c =>
      match resp sid with
      | some d =>
          let r := pollLoop now resp rest (c.set now (matchListKey sid) d MATCH_LIST_TTL)
          (r.1, matchListKey sid :: r.2)
      | none => pollLoop now resp rest c

/-- Embedding of `ExchangePollingScheduler.pollMatchLists` given the
provider responses per sport id. -/
def pollMatchListsModel {D : Type} (c : InMemoryCache D) (now : Nat)
    (resp : Nat → Option D) : InMemoryCache D × List String :=
  pollLoop now resp POLL_SPORT_IDS c

-- ───────────────────────── Redis cache service ─────────────────────────

/-- A Redis value with its expiry instant (`setex` stores for exactly the
ttl; the key lives while `now < expireAt`). -/
structure RedisEntry (V : Type) where
  value : V
  expireAt : Nat
deriving DecidableEq, Repr

/-- State of `RedisCacheService.getOrSet` traffic: the backend key/value
store, the factory executions in flight (`(caller, key, ttl)` — the source
keeps no in-flight map, each missing caller runs its own factory), and the
results handed to callers. -/
structure RedisState (V : Type) where
  kv : List (String × RedisEntry V)
  factRunning : List (Nat × String × Nat)
  delivered : List (Nat × FetchResult V)
deriving DecidableEq, Repr

/-- Embedding of `RedisCacheService.get`: plain TTL semantics, no stale
window. -/
def redisGet {V : Type} (s : RedisState V) (now : Nat) (key : String) :
    Option V :=
  match mlookup s.kv key with
  | none => none
  | some e => if now < e.expireAt then some e.value else none

/-- Embedding of `RedisCacheService.set` (`setex key ttl value`). -/
def redisSetex {V : Type} (s : RedisState V) (now : Nat) (key : String)
    (v : V) (ttlSeconds : Nat) : RedisState V :=
  { s with kv := minsert s.kv key ⟨v, now + ttlSeconds * 1000⟩ }

/-- Embedding of the synchronous body of `RedisCacheService.getOrSet`: on a
hit the cached value is returned; on a miss the caller's own factory starts
— there is no in-flight check. -/
def redisCall {V : Type} (s : RedisState V) (cid : Nat) (key : String)
    (now ttl : Nat) : RedisState V :=
  match redisGet s now key with
  | some v => { s with delivered := s.delivered ++ [(cid, .ok v)] }
  | none => { s with factRunning := s.factRunning ++ [(cid, key, ttl)] }

/-- Removal of one factory-execution record. -/
def removeTriple (l : List (Nat × String × Nat)) (t : Nat × String × Nat) :
    List (Nat × String × Nat) :=
  match l with
  | [] => []
  | x :: rest => if x = t then rest else x :: removeTriple rest t

/-- Embedding of the completion of one caller's factory in
`RedisCacheService.getOrSet`: on fulfilment the value is stored with `setex`
and returned to that caller; a rejection propagates to that caller. -/
def redisDone {V : Type} (s : RedisState V) (cid : Nat) (key : String)
    (ttl : Nat) (r : FetchResult V) (now : Nat) : Option (RedisState V) :=
  if (cid, key, ttl) ∈ s.factRunning then
    match r with
    | .ok v =>
        some { kv := (redisSetex s now key v ttl).kv,
               factRunning := removeTriple s.factRunning (cid, key, ttl),
               delivered := s.delivered ++ [(cid, .ok v)] }
    | .fail e =>
        some { s with
               factRunning := removeTriple s.factRunning (cid, key, ttl),
               delivered := s.delivered ++ [(cid, .fail e)] }
  else none

/-- Events of the Redis getOrSet system. -/
inductive RedisEvent (V : Type) where
  | call (cid : Nat) (key : String) (now ttl : Nat)
  | factoryDone (cid : Nat) (key : String) (ttl : Nat) (r : FetchResult V)
      (now : Nat)
deriving DecidableEq, Repr

/-- Step function of the Redis getOrSet system. -/
def redisStep {V : Type} (s : RedisState V) :
    RedisEvent V → Option (RedisState V)
  | .call cid key now ttl => some (redisCall s cid key now ttl)
  | .factoryDone cid key ttl r now => redisDone s cid key ttl r now

/-- Initial Redis system state. -/
def redisInit {V : Type} : RedisState V := ⟨[], [], []⟩

/-- Number of factory executions currently in flight for a key. -/
def factoriesFor (l : List (Nat × String × Nat)) (key : String) : Nat :=
  match l with
  | [] => 0
  | x :: rest =>
      if x.2.1 = key then factoriesFor rest key + 1 else factoriesFor rest key

-- ───────────────────────── scheduler lifecycle ─────────────────────────

/-- Lifecycle state of `ExchangePollingScheduler`: the `started` flag, the
installed timer handles (odds, matchList, topEvents, banners, sidebar), a
counter producing fresh handles, a ghost count of bootstrap runs, and
whether the worker listeners are attached. -/
structure ExSchedulerState where
  started : Bool
  timers : List Nat
  nextTimer : Nat
  bootstraps : Nat
  listeners : Bool
deriving DecidableEq, Repr

/-- Embedding of `ExchangePollingScheduler.start`: return at once when
already started; else flip the flag, run the one-shot bootstrap and install
the five tier timers. -/
def ExSchedulerState.start (s : ExSchedulerState) : ExSchedulerState :=
  if s.started then s
  else
    { started := true,
      timers := [s.nextTimer, s.nextTimer + 1, s.nextTimer + 2,
                 s.nextTimer + 3, s.nextTimer + 4],
      nextTimer := s.nextTimer + 5,
      bootstraps := s.bootstraps + 1,
      listeners := s.listeners }

/-- Embedding of `ExchangePollingScheduler.stop`: return at once when not
started; else clear every timer, remove the worker listeners and drop the
flag. -/
def ExSchedulerState.stop (s : ExSchedulerState) : ExSchedulerState :=
  if s.started then
    { started := false, timers := [], nextTimer := s.nextTimer,
      bootstraps := s.bootstraps, listeners := false }
  else s

/-- Lifecycle state of `DataPrefetchScheduler` (one odds timer; the
bootstrap is the initial match-list prefetch). -/
structure PrefetchSchedulerState where
  started : Bool
  timers : List Nat
  nextTimer : Nat
  prefetches : Nat
  listeners : Bool
deriving DecidableEq, Repr

/-- Embedding of `DataPrefetchScheduler.start`. -/
def PrefetchSchedulerState.start (s : PrefetchSchedulerState) :
    PrefetchSchedulerState :=
  if s.started then s
  else
    { started := true,
      timers := [s.nextTimer],
      nextTimer := s.nextTimer + 1,
      prefetches := s.prefetches + 1,
      listeners := s.listeners }

/-- Embedding of `DataPrefetchScheduler.stop`. -/
def PrefetchSchedulerState.stop (s : PrefetchSchedulerState) :
    PrefetchSchedulerState :=
  if s.started then
    { started := false, timers := [], nextTimer := s.nextTimer,
      prefetches := s.prefetches, listeners := false }
  else s

-- ───────────────────────── coalescer invariant ─────────────────────────

/-- Inductive invariant of the `RequestCoalescer` system: the ghost log of
running fetcher executions for a key is exactly the content of the key's
in-flight slot; slot ids are fresh with respect to the id counter and the
settlement log; distinct slots hold distinct executions; an execution
settles at most once; and every result handed to a caller is the settlement
result of the execution the caller was subscribed to. -/
structure CoalInv {V : Type} (s : CoalState V) : Prop where
  run_slot : ∀ key, runningFor s.running key =
    (mlookup s.inFlight key).elim [] (fun fid => [fid])
  slot_lt : ∀ key fid, mlookup s.inFlight key = some fid → fid < s.nextFid
  settled_lt : ∀ fid r, (fid, r) ∈ s.settledLog → fid < s.nextFid
  slot_not_settled : ∀ key fid, mlookup s.inFlight key = some fid →
    ∀ r, (fid, r) ∉ s.settledLog
  slot_inj : ∀ k1 k2 fid, mlookup s.inFlight k1 = some fid →
    mlookup s.inFlight k2 = some fid → k1 = k2
  settled_fn : ∀ fid r1 r2, (fid, r1) ∈ s.settledLog →
    (fid, r2) ∈ s.settledLog → r1 = r2
  deliv_settled : ∀ cid fid r, (cid, fid, r) ∈ s.deliveredLog →
    (fid, r) ∈ s.settledLog

-- ───────────────────────── map lemmas ─────────────────────────

theorem mlookup_merase {β : Type} (m : List (String × β)) (key k2 : String) :
    mlookup (merase m key) k2 = if key = k2 then none else mlookup m k2 := by
  induction m with
  | nil => simp [merase, mlookup]
  | cons p rest ih =>
      obtain ⟨k, v⟩ := p
      simp only [merase, mlookup]
      by_cases h1 : k = key
      · subst h1
        by_cases h2 : k = k2
        · subst h2; simp [ih]
        · simp [h2, ih]
      · by_cases h2 : k = k2
        · subst h2
          have : ¬ key = k := fun h => h1 h.symm
          simp [h1, mlookup, this]
        · simp [h1, mlookup, h2, ih]

theorem mlookup_minsert {β : Type} (m : List (String × β)) (key k2 : String)
    (v : β) :
    mlookup (minsert m key v) k2 = if key = k2 then some v else mlookup m k2 := by
  simp only [minsert, mlookup]
  rw [mlookup_merase]
  by_cases h : key = k2 <;> simp [h]

theorem mlookup_eq_none_iff {β : Type} (m : List (String × β)) (key : String) :
    mlookup m key = none ↔ key ∉ mkeys m := by
  induction m with
  | nil => simp [mlookup, mkeys]
  | cons p rest ih =>
      obtain ⟨k, v⟩ := p
      simp only [mlookup, mkeys, List.map_cons, List.mem_cons]
      by_cases h : k = key
      · simp [h]
      · simp only [h, if_false]
        rw [ih]
        simp [mkeys]
        intro
        exact fun hh => h hh.symm

theorem mem_mkeys_of_mlookup {β : Type} {m : List (String × β)} {key : String}
    {v : β} (h : mlookup m key = some v) : key ∈ mkeys m := by
  by_contra hmem
  have := (mlookup_eq_none_iff m key).2 hmem
  rw [this] at h
  cases h

-- ───────────────────────── runner induction ─────────────────────────

theorem runSteps_inv {σ ε : Type} (step : σ → ε → Option σ) (P : σ → Prop)
    (pres : ∀ s e s2, P s → step s e = some s2 → P s2) :
    ∀ (evs : List ε) (s s2 : σ), P s → runSteps step s evs = some s2 → P s2 := by
  intro evs
  induction evs with
  | nil =>
      intro s s2 hP h
      simp only [runSteps, Option.some.injEq] at h
      rwa [← h]
  | cons e rest ih =>
      intro s s2 hP h
      simp only [runSteps] at h
      cases hs : step s e with
      | none => rw [hs] at h; cases h
      | some s1 =>
          rw [hs] at h
          exact ih s1 s2 (pres s e s1 hP hs) h

-- ───────────────────────── claim C6 ─────────────────────────

/-- C6: for every key K, value v and ttl, after `set(K, v, ttl)` at time t0,
a `get(K)` at any t with t0 ≤ t ≤ t0 + ttl·STALE_MULTIPLIER returns v and
leaves the cache unchanged (so every such get in the window returns v,
absent an intervening set, del or flush for K), and `get` returns null once
t exceeds the stale horizon. -/
theorem c6_stale_window_round_trip {V : Type} (c : InMemoryCache V)
    (key : String) (v : V) (ttlSeconds t0 t : Nat) (_h0 : t0 ≤ t) :
    (t ≤ t0 + ttlSeconds * 1000 * STALE_MULTIPLIER →
      ((c.set t0 key v ttlSeconds).get t key).1 = some v ∧
      ((c.set t0 key v ttlSeconds).get t key).2 = c.set t0 key v ttlSeconds) ∧
    (t0 + ttlSeconds * 1000 * STALE_MULTIPLIER < t →
      ((c.set t0 key v ttlSeconds).get t key).1 = none) := by
  have hl : mlookup (c.set t0 key v ttlSeconds).store key =
      some ⟨v, t0 + ttlSeconds * 1000,
            t0 + ttlSeconds * 1000 * STALE_MULTIPLIER⟩ := by
    simp [InMemoryCache.set, mlookup_minsert]
  constructor
  · intro ht
    have hnot : ¬ (t0 + ttlSeconds * 1000 * STALE_MULTIPLIER < t) := by omega
    constructor <;> simp [InMemoryCache.get, hl, hnot]
  · intro ht
    simp [InMemoryCache.get, hl, ht]

/-- Witness for C6 at a concrete input: set at t0 = 0 with ttl 2 s, get at
t = 3000 ms (inside the 4000 ms stale horizon) returns the value; get at
t = 4001 ms returns null. -/
theorem c6_stale_window_round_trip_witness :
    (((⟨[]⟩ : InMemoryCache Nat).set 0 "k" 7 2).get 3000 "k").1 = some 7 ∧
    (((⟨[]⟩ : InMemoryCache Nat).set 0 "k" 7 2).get 4001 "k").1 = none :=
  ⟨((c6_stale_window_round_trip ⟨[]⟩ "k" 7 2 0 3000 (by decide)).1
      (by decide)).1,
   (c6_stale_window_round_trip ⟨[]⟩ "k" 7 2 0 4001 (by decide)).2 (by decide)⟩

-- ───────────────────────── claim C9 ─────────────────────────

/-- C9: scheduler lifecycle idempotence — for both the exchange polling
scheduler and the data prefetch scheduler, calling start twice equals
calling it once (the second call returns at once since `started` holds, so
no second timer set and no second bootstrap), and calling stop twice equals
calling it once. -/
theorem c9_start_stop_idempotent :
    (∀ s : ExSchedulerState, s.start.start = s.start) ∧
    (∀ s : ExSchedulerState, s.stop.stop = s.stop) ∧
    (∀ s : PrefetchSchedulerState, s.start.start = s.start) ∧
    (∀ s : PrefetchSchedulerState, s.stop.stop = s.stop) := by
  refine ⟨fun s => ?_, fun s => ?_, fun s => ?_, fun s => ?_⟩
  · by_cases h : s.started <;> simp [ExSchedulerState.start, h]
  · by_cases h : s.started <;> simp [ExSchedulerState.stop, h]
  · by_cases h : s.started <;> simp [PrefetchSchedulerState.start, h]
  · by_cases h : s.started <;> simp [PrefetchSchedulerState.stop, h]

-- ───────────────────────── claim C7 ─────────────────────────

/-- C7: a `null` provider response (or an empty market list) never
overwrites the cache — the worker's `fetchOdds`, the coalesced
`getCoalescedOdds` factory and the match-list poll handler perform no
`cache.set` for the key (empty ghost write log) and leave the cache state
unchanged, so a previously cached entry keeps aging toward its own
staleUntil. -/
theorem c7_null_response_preserves_cache {M D : Type}
    (c : InMemoryCache (List M)) (cd : InMemoryCache D) (now : Nat)
    (gmid : String) (resp : Nat → Option D)
    (hresp : ∀ sid ∈ POLL_SPORT_IDS, resp sid = none) :
    (fetchOddsModel c now gmid none = (false, c, []) ∧
     fetchOddsModel c now gmid (some []) = (false, c, [])) ∧
    (getCoalescedOddsModel c now gmid none = (none, c, []) ∧
     getCoalescedOddsModel c now gmid (some []) = (some [], c, [])) ∧
    pollMatchListsModel cd now resp = (cd, []) := by
  refine ⟨⟨rfl, rfl⟩, ⟨rfl, rfl⟩, ?_⟩
  have h4 := hresp 4 (by simp [POLL_SPORT_IDS])
  have h1 := hresp 1 (by simp [POLL_SPORT_IDS])
  have h2 := hresp 2 (by simp [POLL_SPORT_IDS])
  simp [pollMatchListsModel, POLL_SPORT_IDS, pollLoop, h4, h1, h2]

/-- Witness for C7 at a concrete input: with a one-entry cache and a
provider returning `null` everywhere, nothing is written. -/
theorem c7_null_response_preserves_cache_witness :
    fetchOddsModel (⟨[("exchange:odds:G", ⟨[9], 5, 10⟩)]⟩ :
        InMemoryCache (List Nat)) 7 "G" none =
      (false, ⟨[("exchange:odds:G", ⟨[9], 5, 10⟩)]⟩, []) ∧
    pollMatchListsModel (⟨[]⟩ : InMemoryCache Nat) 7 (fun _ => none) =
      (⟨[]⟩, []) :=
  ⟨(c7_null_response_preserves_cache
      (⟨[("exchange:odds:G", ⟨[9], 5, 10⟩)]⟩ : InMemoryCache (List Nat))
      (⟨[]⟩ : InMemoryCache Nat) 7 "G" (fun _ => none)
      (fun _ _ => rfl)).1.1,
   (c7_null_response_preserves_cache
      (⟨[("exchange:odds:G", ⟨[9], 5, 10⟩)]⟩ : InMemoryCache (List Nat))
      (⟨[]⟩ : InMemoryCache Nat) 7 "G" (fun _ => none)
      (fun _ _ => rfl)).2.2⟩

-- ───────────────────────── glob and string lemmas ─────────────────────────

theorem isPrefixOf_append_self (xs ys : List Char) :
    xs.isPrefixOf (xs ++ ys) = true := by
  induction xs with
  | nil => cases ys <;> rfl
  | cons a as ih => simp [List.isPrefixOf, ih]

theorem isPrefixOf_eq_append {xs ys : List Char}
    (h : xs.isPrefixOf ys = true) : ys = xs ++ ys.drop xs.length := by
  induction xs generalizing ys with
  | nil => simp
  | cons a as ih =>
      cases ys with
      | nil => simp [List.isPrefixOf] at h
      | cons b bs =>
          simp only [List.isPrefixOf, Bool.and_eq_true, beq_iff_eq] at h
          obtain ⟨rfl, h2⟩ := h
          simp only [List.cons_append, List.length_cons, List.drop_succ_cons]
          exact congrArg _ (ih h2)

theorem globStarAux_of_nil {f : List Char → Bool} (hf : f [] = true) :
    ∀ ds : List Char, globStarAux f ds = true := by
  intro ds
  induction ds with
  | nil => simpa [globStarAux]
  | cons d ds ih => simp [globStarAux, ih]

theorem globMatch_append_star (pre : List Char)
    (hw : ∀ c ∈ pre, c ≠ '*' ∧ c ≠ '?') (cs : List Char) :
    globMatch (pre ++ ['*']) cs = pre.isPrefixOf cs := by
  induction pre generalizing cs with
  | nil =>
      have star := globStarAux_of_nil (f := globMatch []) rfl cs
      cases cs with
      | nil => rfl
      | cons c cs2 =>
          simp only [List.nil_append]
          show globMatch ['*'] (c :: cs2) = true
          simpa [globMatch] using star
  | cons p ps ih =>
      have hp := hw p (by simp)
      have hw2 : ∀ c ∈ ps, c ≠ '*' ∧ c ≠ '?' :=
        fun c hc => hw c (List.mem_cons_of_mem _ hc)
      cases cs with
      | nil =>
          simp only [List.cons_append, globMatch, List.isPrefixOf]
          rw [if_neg hp.1]
      | cons c cs2 =>
          simp only [List.cons_append, globMatch, List.isPrefixOf]
          rw [if_neg hp.1, if_neg hp.2]
          by_cases hpc : p = c <;> simp [hpc, ih hw2]

theorem string_toList_inj {s t : String} (h : s.toList = t.toList) : s = t := by
  cases s
  cases t
  exact congrArg String.mk h

theorem toList_hotGmidKey (g : String) :
    (hotGmidKey g).toList = HOT_GMID_MARK.toList ++ g.toList := by
  cases g
  rfl

theorem stripHot_hotGmidKey (g : String) : stripHot (hotGmidKey g) = g := by
  have hpre : HOT_GMID_MARK.toList.isPrefixOf (hotGmidKey g).toList = true := by
    rw [toList_hotGmidKey]
    exact isPrefixOf_append_self _ _
  unfold stripHot
  rw [if_pos hpre, toList_hotGmidKey, List.drop_left]
  cases g
  rfl

theorem hot_glob_iff (k : String) :
    globMatch hotGmidGlob.toList k.toList = true ↔
    HOT_GMID_MARK.toList.isPrefixOf k.toList = true := by
  have he : hotGmidGlob.toList = HOT_GMID_MARK.toList ++ ['*'] := by decide
  rw [he, globMatch_append_star _ (by decide)]

theorem hot_key_recover {k : String}
    (h : globMatch hotGmidGlob.toList k.toList = true) :
    k = hotGmidKey (stripHot k) := by
  have hp := (hot_glob_iff k).1 h
  have h2 := isPrefixOf_eq_append hp
  have h3 : stripHot k = ⟨k.toList.drop HOT_GMID_MARK.toList.length⟩ := by
    unfold stripHot
    rw [if_pos hp]
  refine (string_toList_inj ?_).symm
  rw [toList_hotGmidKey, h3]
  exact h2.symm

-- ───────────────────────── get and hotLoop lemmas ─────────────────────────

theorem get_preserves_none {V : Type} (c : InMemoryCache V) (now : Nat)
    (k key : String) (h : mlookup c.store key = none) :
    mlookup ((c.get now k).2).store key = none := by
  rcases hl : mlookup c.store k with _ | e
  · simp [InMemoryCache.get, hl, h]
  · by_cases hx : e.staleUntil < now
    · simp only [InMemoryCache.get, hl, hx, if_true]
      rw [mlookup_merase]
      by_cases hk : k = key <;> simp [hk, h]
    · simp [InMemoryCache.get, hl, hx, h]

theorem get_preserves_other {V : Type} (c : InMemoryCache V) (now : Nat)
    (k key : String) (hne : k ≠ key) :
    mlookup ((c.get now k).2).store key = mlookup c.store key := by
  rcases hl : mlookup c.store k with _ | e
  · simp [InMemoryCache.get, hl]
  · by_cases hx : e.staleUntil < now
    · simp only [InMemoryCache.get, hl, hx, if_true]
      rw [mlookup_merase]
      simp [hne]
    · simp [InMemoryCache.get, hl, hx]

theorem get_purges {V : Type} {c : InMemoryCache V} {key : String} {now : Nat}
    {e : CacheEntry V} (h : mlookup c.store key = some e)
    (hx : e.staleUntil < now) :
    (c.get now key).1 = none ∧
    mlookup ((c.get now key).2).store key = none := by
  constructor
  · simp [InMemoryCache.get, h, hx]
  · simp [InMemoryCache.get, h, hx, mlookup_merase]

theorem hotLoop_gmids (now : Nat) (ks : List String)
    (c : InMemoryCache HotPayload) :
    (hotLoop now ks c).1.map (fun e => e.gmid) = ks.map stripHot := by
  induction ks generalizing c with
  | nil => rfl
  | cons k rest ih => simp [hotLoop, ih]

theorem hotLoop_preserves_none (now : Nat) (ks : List String) :
    ∀ (c : InMemoryCache HotPayload) (key : String),
      mlookup c.store key = none →
      mlookup ((hotLoop now ks c).2).store key = none := by
  induction ks with
  | nil => intro c key h; simpa [hotLoop]
  | cons k rest ih =>
      intro c key h
      simp only [hotLoop]
      exact ih _ key (get_preserves_none c now k key h)

theorem hotLoop_purges (now : Nat) (ks : List String)
    (c : InMemoryCache HotPayload) (key : String) (hmem : key ∈ ks)
    (hstale : ∀ e, mlookup c.store key = some e → e.staleUntil < now) :
    mlookup ((hotLoop now ks c).2).store key = none := by
  induction ks generalizing c with
  | nil => cases hmem
  | cons k rest ih =>
      simp only [hotLoop]
      by_cases hk : k = key
      · subst hk
        rcases hl : mlookup c.store k with _ | e
        · exact hotLoop_preserves_none now rest _ k
            (get_preserves_none c now k k hl)
        · exact hotLoop_preserves_none now rest _ k
            (get_purges hl (hstale e hl)).2
      · have hmem2 : key ∈ rest := by
          rcases List.mem_cons.1 hmem with h | h
          · exact absurd h.symm hk
          · exact h
        apply ih _ hmem2
        intro e he
        rw [get_preserves_other c now k key hk] at he
        exact hstale e he

theorem hot_enum_mem_iff (c : InMemoryCache HotPayload) (now : Nat)
    (g : String) :
    g ∈ hotGmidsOf (getHotGmids c now).1 ↔ hotGmidKey g ∈ mkeys c.store := by
  unfold getHotGmids hotGmidsOf
  rw [hotLoop_gmids]
  constructor
  · intro h
    rcases List.mem_map.1 h with ⟨k, hk, hstrip⟩
    have hkf := List.mem_filter.1 hk
    have hrec := hot_key_recover hkf.2
    have : hotGmidKey g = k := by rw [← hstrip, ← hrec]
    rw [this]
    exact hkf.1
  · intro h
    apply List.mem_map.2
    refine ⟨hotGmidKey g, ?_, stripHot_hotGmidKey g⟩
    apply List.mem_filter.2
    refine ⟨h, ?_⟩
    show globMatch hotGmidGlob.toList (hotGmidKey g).toList = true
    rw [hot_glob_iff, toList_hotGmidKey]
    exact isPrefixOf_append_self _ _

-- ───────────────────────── claim C4 ─────────────────────────

/-- C4 counterexample: the claim "if mark is not called for K for a window
longer than HOT_TTL, then list does not contain K" is false at a concrete
input.  A single `markGmidHot("G", 7)` at t0 = 0 with the default
oddsHotTtl = 30 s writes a record whose stale horizon is
30 000 · STALE_MULTIPLIER = 60 000 ms; `getHotGmids` at now = 31 000 ms —
a 31 s window with no further mark, longer than HOT_TTL — still returns G
(with its stored sid 7), because the in-memory cache serves the record
while stale. -/
theorem c4_hot_aging_counterexample :
    30 * 1000 < 31000 ∧
    (getHotGmids (markGmidHot ⟨[]⟩ 0 "G" 7 30) 31000).1 =
      [⟨"G", 7⟩] :=
  ⟨by decide, by decide⟩

/-- C4 amended: with the in-memory cache, `getHotGmids` lists K exactly as
long as a record for K is in the store map, whatever its expiry (an expired
record is listed with the fallback sid until purged); the record written by
`markGmidHot` at t0 with ttl `oddsHotTtl` is purged by the first
`getHotGmids` executed after t0 + oddsHotTtl · STALE_MULTIPLIER (twice the
hot TTL), and every later `getHotGmids` no longer contains K.  So a key
drops out of the 1-second polling set only after HOT_TTL × STALE_MULTIPLIER
plus one further enumeration, not within HOT_TTL. -/
theorem c4_hot_aging_amended (c : InMemoryCache HotPayload)
    (t0 now now2 : Nat) (g : String) (sid oddsHotTtl : Nat) :
    (∀ (c' : InMemoryCache HotPayload) (n : Nat) (g' : String),
        g' ∈ hotGmidsOf (getHotGmids c' n).1 ↔
        hotGmidKey g' ∈ mkeys c'.store) ∧
    (t0 + oddsHotTtl * 1000 * STALE_MULTIPLIER < now →
      mlookup ((getHotGmids (markGmidHot c t0 g sid oddsHotTtl) now).2).store
        (hotGmidKey g) = none) ∧
    (t0 + oddsHotTtl * 1000 * STALE_MULTIPLIER < now →
      g ∉ hotGmidsOf
        (getHotGmids
          ((getHotGmids (markGmidHot c t0 g sid oddsHotTtl) now).2) now2).1) := by
  have hpurge : t0 + oddsHotTtl * 1000 * STALE_MULTIPLIER < now →
      mlookup ((getHotGmids (markGmidHot c t0 g sid oddsHotTtl) now).2).store
        (hotGmidKey g) = none := by
    intro hlate
    unfold getHotGmids
    apply hotLoop_purges
    · show hotGmidKey g ∈ InMemoryCache.keys _ hotGmidGlob
      apply List.mem_filter.2
      constructor
      · show hotGmidKey g ∈ mkeys (minsert _ _ _)
        simp [minsert, mkeys]
      · show globMatch hotGmidGlob.toList (hotGmidKey g).toList = true
        rw [hot_glob_iff, toList_hotGmidKey]
        exact isPrefixOf_append_self _ _
    · intro e he
      have : mlookup (markGmidHot c t0 g sid oddsHotTtl).store (hotGmidKey g) =
          some ⟨⟨g, some sid, t0⟩, t0 + oddsHotTtl * 1000,
                t0 + oddsHotTtl * 1000 * STALE_MULTIPLIER⟩ := by
        simp [markGmidHot, InMemoryCache.set, mlookup_minsert]
      rw [this] at he
      cases he
      simpa using hlate
  refine ⟨fun c' n g' => hot_enum_mem_iff c' n g', hpurge, ?_⟩
  intro hlate hmem
  have h1 := (hot_enum_mem_iff _ now2 g).1 hmem
  have h2 := (mlookup_eq_none_iff _ (hotGmidKey g)).1 (hpurge hlate)
  exact h2 h1

/-- Witness for C4 amended at a concrete input: after the mark at t0 = 0
with ttl 30 s, the enumeration at 61 000 ms purges the record, and a second
enumeration at 62 000 ms no longer contains G. -/
theorem c4_hot_aging_amended_witness :
    mlookup ((getHotGmids (markGmidHot ⟨[]⟩ 0 "G" 7 30) 61000).2).store
      (hotGmidKey "G") = none ∧
    "G" ∉ hotGmidsOf
      (getHotGmids ((getHotGmids (markGmidHot ⟨[]⟩ 0 "G" 7 30) 61000).2)
        62000).1 :=
  ⟨(c4_hot_aging_amended ⟨[]⟩ 0 61000 62000 "G" 7 30).2.1 (by decide),
   (c4_hot_aging_amended ⟨[]⟩ 0 61000 62000 "G" 7 30).2.2 (by decide)⟩

-- ───────────────────────── claim C10 ─────────────────────────

/-- C10: `keys(pattern)` matches the glob against every key present in the
store map without checking expiry — a fully expired entry's key is still
returned (first conjunct); the expired entry is removed only lazily when
`get` next runs on its key, which returns null and purges (second and third
conjuncts); and consequently the hot-set enumeration built on `keys` can
include an identifier whose hot record has already expired (final
conjunct). -/
theorem c10_keys_no_expiry_check {V : Type} :
    (∀ (c : InMemoryCache V) (now : Nat) (key pat : String)
        (e : CacheEntry V),
      mlookup c.store key = some e → e.staleUntil < now →
      ((globMatch pat.toList key.toList = true → key ∈ c.keys pat) ∧
       (c.get now key).1 = none ∧
       mlookup ((c.get now key).2).store key = none)) ∧
    (∀ (ch : InMemoryCache HotPayload) (now : Nat) (g : String)
        (e : CacheEntry HotPayload),
      mlookup ch.store (hotGmidKey g) = some e → e.staleUntil < now →
      g ∈ hotGmidsOf (getHotGmids ch now).1) := by
  constructor
  · intro c now key pat e hl hx
    refine ⟨?_, (get_purges hl hx).1, (get_purges hl hx).2⟩
    intro hglob
    exact List.mem_filter.2 ⟨mem_mkeys_of_mlookup hl, hglob⟩
  · intro ch now g e hl _
    exact (hot_enum_mem_iff ch now g).2 (mem_mkeys_of_mlookup hl)

/-- Witness for C10 at a concrete input: a store holding an entry for
`xhot:gmid:G` whose staleUntil = 10 is long past at now = 11; `keys` still
returns the key, `get` returns null and purges, and the hot enumeration
still lists G. -/
theorem c10_keys_no_expiry_check_witness :
    ("xhot:gmid:G" ∈
      (⟨[("xhot:gmid:G", ⟨⟨"G", some 7, 0⟩, 5, 10⟩)]⟩ :
          InMemoryCache HotPayload).keys "xhot:gmid:*" ∧
     ((⟨[("xhot:gmid:G", ⟨⟨"G", some 7, 0⟩, 5, 10⟩)]⟩ :
          InMemoryCache HotPayload).get 11 "xhot:gmid:G").1 = none ∧
     mlookup (((⟨[("xhot:gmid:G", ⟨⟨"G", some 7, 0⟩, 5, 10⟩)]⟩ :
          InMemoryCache HotPayload).get 11 "xhot:gmid:G").2).store
        "xhot:gmid:G" = none) ∧
    "G" ∈ hotGmidsOf
      (getHotGmids
        (⟨[("xhot:gmid:G", ⟨⟨"G", some 7, 0⟩, 5, 10⟩)]⟩ :
            InMemoryCache HotPayload) 11).1 := by
  constructor
  · exact (c10_keys_no_expiry_check.1
      ⟨[("xhot:gmid:G", ⟨⟨"G", some 7, 0⟩, 5, 10⟩)]⟩ 11 "xhot:gmid:G"
      "xhot:gmid:*" ⟨⟨"G", some 7, 0⟩, 5, 10⟩ (by decide) (by decide)).imp
      (fun h => h (by decide)) id
  · exact (c10_keys_no_expiry_check (V := HotPayload)).2
      ⟨[("xhot:gmid:G", ⟨⟨"G", some 7, 0⟩, 5, 10⟩)]⟩ 11 "G"
      ⟨⟨"G", some 7, 0⟩, 5, 10⟩ (by decide) (by decide)

-- ───────────────────────── worker lemmas ─────────────────────────

theorem drainLoop_active_le {α : Type} (q : List α) (a st : Nat)
    (h : a ≤ MAX_CONCURRENCY) :
    (drainLoop q a st).2.1 ≤ MAX_CONCURRENCY := by
  induction q generalizing a st with
  | nil => simpa [drainLoop]
  | cons e rest ih =>
      simp only [drainLoop]
      by_cases hc : a < MAX_CONCURRENCY
      · rw [if_pos hc]
        exact ih (a + 1) (st + 1) hc
      · rw [if_neg hc]
        simpa

theorem drainLoop_count {α : Type} (q : List α) (a st : Nat) :
    (drainLoop q a st).2.1 + st = (drainLoop q a st).2.2 + a := by
  induction q generalizing a st with
  | nil => simp only [drainLoop]; omega
  | cons e rest ih =>
      simp only [drainLoop]
      by_cases hc : a < MAX_CONCURRENCY
      · rw [if_pos hc]
        have := ih (a + 1) (st + 1)
        omega
      · rw [if_neg hc]
        show a + st = st + a
        omega

theorem drain_inv {α : Type} [DecidableEq α] (s : WorkerState α)
    (h1 : s.inflightFetches = s.active) (h2 : s.active ≤ MAX_CONCURRENCY) :
    s.drain.inflightFetches = s.drain.active ∧
    s.drain.active ≤ MAX_CONCURRENCY := by
  have hle := drainLoop_active_le s.queue s.active 0 h2
  have hcount := drainLoop_count s.queue s.active 0
  simp only [WorkerState.drain]
  split_ifs with hA hB
  · exact ⟨h1, h2⟩
  · refine ⟨?_, hle⟩
    show s.inflightFetches + (drainLoop s.queue s.active 0).2.2 =
      (drainLoop s.queue s.active 0).2.1
    omega
  · refine ⟨?_, hle⟩
    show s.inflightFetches + (drainLoop s.queue s.active 0).2.2 =
      (drainLoop s.queue s.active 0).2.1
    omega

theorem worker_inv_pres {α : Type} [DecidableEq α] (s : WorkerState α)
    (e : WorkerEvent α) (s2 : WorkerState α)
    (h : s.inflightFetches = s.active ∧ s.active ≤ MAX_CONCURRENCY)
    (hstep : workerStep s e = some s2) :
    s2.inflightFetches = s2.active ∧ s2.active ≤ MAX_CONCURRENCY := by
  cases e with
  | enqueue entries =>
      simp only [workerStep, Option.some.injEq] at hstep
      subst hstep
      exact drain_inv _ h.1 h.2
  | fetchDone =>
      simp only [workerStep, WorkerState.fetchDone] at hstep
      by_cases ha : s.active = 0
      · rw [if_pos ha] at hstep
        cases hstep
      · rw [if_neg ha] at hstep
        injection hstep with h2
        subst h2
        apply drain_inv
        · show s.inflightFetches - 1 = s.active - 1
          omega
        · show s.active - 1 ≤ MAX_CONCURRENCY
          omega

-- ───────────────────────── claim C3 ─────────────────────────

/-- C3: worker-pool concurrency bound — in every state reachable by the
odds fetch worker from idle, the number of in-flight provider fetches
started by the pool equals `activeCount` and never exceeds
MAX_CONCURRENCY = 5, regardless of how many entries are enqueued or across
how many ticks. -/
theorem c3_worker_concurrency_bound {α : Type} [DecidableEq α]
    (evs : List (WorkerEvent α)) (s : WorkerState α)
    (h : runSteps workerStep workerInit evs = some s) :
    s.inflightFetches = s.active ∧ s.active ≤ MAX_CONCURRENCY :=
  runSteps_inv workerStep
    (fun w => w.inflightFetches = w.active ∧ w.active ≤ MAX_CONCURRENCY)
    (fun s1 e s2 hP hs => worker_inv_pres s1 e s2 hP hs)
    evs workerInit s ⟨rfl, Nat.zero_le _⟩ h

/-- Witness for C3 at a concrete input: enqueuing seven entries in one tick
starts exactly five fetches (two stay queued). -/
theorem c3_worker_concurrency_bound_witness :
    (⟨[6, 7], 5, true, 5, 0⟩ : WorkerState Nat).inflightFetches =
      (⟨[6, 7], 5, true, 5, 0⟩ : WorkerState Nat).active ∧
    (⟨[6, 7], 5, true, 5, 0⟩ : WorkerState Nat).active ≤ MAX_CONCURRENCY :=
  c3_worker_concurrency_bound [WorkerEvent.enqueue [1, 2, 3, 4, 5, 6, 7]]
    ⟨[6, 7], 5, true, 5, 0⟩ (by decide)

-- ───────────────────────── odds tier lemmas ─────────────────────────

theorem drainLoop_active_mono {α : Type} (q : List α) (a st : Nat) :
    a ≤ (drainLoop q a st).2.1 := by
  induction q generalizing a st with
  | nil => simp [drainLoop]
  | cons e rest ih =>
      simp only [drainLoop]
      by_cases hc : a < MAX_CONCURRENCY
      · rw [if_pos hc]
        exact Nat.le_trans (Nat.le_succ a) (ih (a + 1) (st + 1))
      · rw [if_neg hc]

theorem drain_ticks_cases {α : Type} [DecidableEq α] (s : WorkerState α) :
    s.drain.ticks = s.ticks ∨
    (s.drain.ticks = s.ticks + 1 ∧ s.drain.queue = [] ∧ s.drain.active = 0 ∧
     s.drain.processing = false) := by
  simp only [WorkerState.drain]
  split_ifs with hA hB
  · exact Or.inr ⟨rfl, hA.2.1, hA.2.2, rfl⟩
  · exact Or.inr ⟨rfl, hB.1, hB.2, rfl⟩
  · exact Or.inl rfl

theorem enqueue_nonempty_idle {α : Type} [DecidableEq α] (w : WorkerState α)
    (ha : w.active = 0) (hq : w.queue = []) (hp : w.processing = false)
    (hh : α) (ht : List α) :
    (w.enqueue (hh :: ht)).ticks = w.ticks ∧
    0 < (w.enqueue (hh :: ht)).active := by
  obtain ⟨wq, wa, wproc, winf, wticks⟩ := w
  simp only at ha hq hp
  subst ha
  subst hq
  subst hp
  have hr1 : 1 ≤ (drainLoop (hh :: ht) 0 0).2.1 := by
    show 1 ≤ (drainLoop ht 1 1).2.1
    exact drainLoop_active_mono ht 1 1
  unfold WorkerState.enqueue WorkerState.drain
  simp only [List.nil_append]
  rw [if_neg (by simp)]
  rw [if_neg (fun hc => absurd hc.2 (by omega))]
  exact ⟨rfl, hr1⟩

theorem oddsTick_dispatch (s : OddsTierState) (hh : HotGmidEntry)
    (ht : List HotGmidEntry) (hflag : s.oddsPollingActive = false)
    (ha : s.worker.active = 0) (hq : s.worker.queue = [])
    (hp : s.worker.processing = false) :
    (oddsTick s (hh :: ht)).oddsPollingActive = true ∧
    (oddsTick s (hh :: ht)).dispatched = s.dispatched ++ [hh :: ht] := by
  have hen := enqueue_nonempty_idle s.worker ha hq hp hh ht
  unfold oddsTick
  rw [if_neg (by simp [hflag]), if_neg (by simp)]
  constructor
  · show (if s.worker.ticks < (s.worker.enqueue (hh :: ht)).ticks
        then false else true) = true
    rw [hen.1]
    simp
  · rfl

theorem odds_inv_pres (s : OddsTierState) (e : OddsEvent) (s2 : OddsTierState)
    (hP : s.oddsPollingActive = false →
      s.worker.active = 0 ∧ s.worker.queue = [] ∧ s.worker.processing = false)
    (hstep : oddsStep s e = some s2) :
    s2.oddsPollingActive = false →
    s2.worker.active = 0 ∧ s2.worker.queue = [] ∧
    s2.worker.processing = false := by
  cases e with
  | tick hot =>
      simp only [oddsStep, Option.some.injEq] at hstep
      subst hstep
      unfold oddsTick
      by_cases hf : s.oddsPollingActive
      · rw [if_pos hf]
        exact hP
      · rw [if_neg hf]
        by_cases hh : hot = []
        · rw [if_pos hh]
          exact hP
        · rw [if_neg hh]
          intro hflag2
          by_cases ht : s.worker.ticks < (s.worker.enqueue hot).ticks
          · rcases drain_ticks_cases
                { s.worker with queue := s.worker.queue ++ hot } with hsame | hdone
            · exact absurd ht (by
                show ¬ s.worker.ticks <
                  ({ s.worker with queue := s.worker.queue ++ hot}.drain).ticks
                rw [hsame]
                exact Nat.lt_irrefl _)
            · exact ⟨hdone.2.2.1, hdone.2.1, hdone.2.2.2⟩
          · exact absurd hflag2 (by
              show ¬ ((if s.worker.ticks < (s.worker.enqueue hot).ticks
                  then false else true) = false)
              rw [if_neg ht]
              simp)
  | fetchDone =>
      simp only [oddsStep, oddsFetchDone] at hstep
      cases hwf : s.worker.fetchDone with
      | none => rw [hwf] at hstep; cases hstep
      | some w2 =>
          rw [hwf] at hstep
          injection hstep with h2
          subst h2
          intro hflag2
          by_cases ht : s.worker.ticks < w2.ticks
          · unfold WorkerState.fetchDone at hwf
            by_cases ha : s.worker.active = 0
            · rw [if_pos ha] at hwf
              cases hwf
            · rw [if_neg ha] at hwf
              injection hwf with h3
              rcases drain_ticks_cases { s.worker with active := s.worker.active - 1, inflightFetches := s.worker.inflightFetches - 1 } with hsame | hdone
              · rw [h3] at hsame
                exact absurd ht (by
                  show ¬ s.worker.ticks < w2.ticks
                  rw [hsame]
                  exact Nat.lt_irrefl _)
              · rw [h3] at hdone
                exact ⟨hdone.2.2.1, hdone.2.1, hdone.2.2.2⟩
          · have hidle := hP (by simpa [ht] using hflag2)
            unfold WorkerState.fetchDone at hwf
            rw [if_pos hidle.1] at hwf
            cases hwf

-- ───────────────────────── claim C5 ─────────────────────────

/-- C5: odds-tier tick non-overlap and empty-set no-op, in every reachable
state of the odds tier: (i) while `oddsPollingActive` is true, a tick
leaves the state untouched (nothing is enqueued); (ii) whenever the flag is
down the worker is fully drained (empty queue, zero active fetches), so a
tick that does dispatch starts from a drained worker — no two ticks are
ever in their enqueuing phase simultaneously; (iii) a tick with an empty
hot set is a no-op (no dispatch, flag stays down, no provider calls);
(iv) a dispatching tick raises the flag before the batch is processed and
records exactly its batch; (v) the flag is cleared only by a step in which
the worker emits TICK_COMPLETE (its ticks counter increases). -/
theorem c5_tick_non_overlap (evs : List OddsEvent) (s : OddsTierState)
    (h : runSteps oddsStep oddsInit evs = some s) :
    (∀ hot, s.oddsPollingActive = true → oddsTick s hot = s) ∧
    (s.oddsPollingActive = false →
      s.worker.active = 0 ∧ s.worker.queue = [] ∧
      s.worker.processing = false) ∧
    (oddsTick s [] = s) ∧
    (∀ hh ht, s.oddsPollingActive = false →
      (oddsTick s (hh :: ht)).oddsPollingActive = true ∧
      (oddsTick s (hh :: ht)).dispatched = s.dispatched ++ [hh :: ht]) ∧
    (∀ e s2, oddsStep s e = some s2 → s.oddsPollingActive = true →
      s2.oddsPollingActive = false → s.worker.ticks < s2.worker.ticks) := by
  have hinv : s.oddsPollingActive = false →
      s.worker.active = 0 ∧ s.worker.queue = [] ∧
      s.worker.processing = false := by
    refine runSteps_inv oddsStep _ (fun s1 e s2 hP hs => odds_inv_pres s1 e s2 hP hs)
      evs oddsInit s (fun _ => ⟨rfl, rfl, rfl⟩) h
  refine ⟨?_, hinv, ?_, ?_, ?_⟩
  · intro hot hflag
    unfold oddsTick
    rw [if_pos hflag]
  · unfold oddsTick
    by_cases hf : s.oddsPollingActive
    · rw [if_pos hf]
    · rw [if_neg hf, if_pos rfl]
  · intro hh ht hflag
    have hidle := hinv hflag
    exact oddsTick_dispatch s hh ht hflag hidle.1 hidle.2.1 hidle.2.2
  · intro e s2 hstep hflag hflag2
    cases e with
    | tick hot =>
        simp only [oddsStep, Option.some.injEq] at hstep
        subst hstep
        unfold oddsTick at hflag2
        rw [if_pos hflag] at hflag2
        rw [hflag] at hflag2
        cases hflag2
    | fetchDone =>
        simp only [oddsStep, oddsFetchDone] at hstep
        cases hwf : s.worker.fetchDone with
        | none => rw [hwf] at hstep; cases hstep
        | some w2 =>
            rw [hwf] at hstep
            injection hstep with h2
            subst h2
            by_cases ht : s.worker.ticks < w2.ticks
            · exact ht
            · exact absurd hflag2 (by
                show ¬ ((if s.worker.ticks < w2.ticks
                    then false else s.oddsPollingActive) = false)
                rw [if_neg ht, hflag]
                simp)

/-- Witness for C5 at a concrete input: after one dispatching tick (one hot
entry, flag raised, one fetch active), a further tick is a no-op. -/
theorem c5_tick_non_overlap_witness :
    oddsTick ⟨true, ⟨[], 1, true, 1, 0⟩, [[⟨"G", 4⟩]]⟩ [⟨"H", 5⟩] =
      ⟨true, ⟨[], 1, true, 1, 0⟩, [[⟨"G", 4⟩]]⟩ :=
  (c5_tick_non_overlap [OddsEvent.tick [⟨"G", 4⟩]]
    ⟨true, ⟨[], 1, true, 1, 0⟩, [[⟨"G", 4⟩]]⟩ (by decide)).1 [⟨"H", 5⟩] rfl

-- ───────────────────────── coalescer lemmas ─────────────────────────

theorem runningFor_append (rs : List (String × Nat)) (p : String × Nat)
    (key : String) :
    runningFor (rs ++ [p]) key =
      runningFor rs key ++ (if p.1 = key then [p.2] else []) := by
  induction rs with
  | nil => by_cases h : p.1 = key <;> simp [runningFor, h]
  | cons q rest ih =>
      simp only [List.cons_append, runningFor]
      by_cases h : q.1 = key <;> simp [h, ih]

theorem runningFor_removeRun (rs : List (String × Nat)) (key : String)
    (fid : Nat) :
    runningFor (removeRun rs key fid) key =
      (runningFor rs key).filter (fun x => x != fid) := by
  induction rs with
  | nil => rfl
  | cons q rest ih =>
      simp only [removeRun, runningFor]
      by_cases h1 : q.1 = key ∧ q.2 = fid
      · rw [if_pos h1]
        rw [ih]
        simp [runningFor, h1.1, h1.2]
      · rw [if_neg h1]
        by_cases h2 : q.1 = key
        · have h3 : q.2 ≠ fid := fun hx => h1 ⟨h2, hx⟩
          simp [runningFor, h2, h3, ih]
        · simp [runningFor, h2, ih]

theorem runningFor_removeRun_other (rs : List (String × Nat)) (key : String)
    (fid : Nat) (k2 : String) (hne : key ≠ k2) :
    runningFor (removeRun rs key fid) k2 = runningFor rs k2 := by
  induction rs with
  | nil => rfl
  | cons q rest ih =>
      simp only [removeRun, runningFor]
      by_cases h1 : q.1 = key ∧ q.2 = fid
      · rw [if_pos h1]
        have hq : ¬ q.1 = k2 := fun hx => hne (h1.1 ▸ hx)
        simp [runningFor, hq, ih]
      · rw [if_neg h1]
        by_cases h2 : q.1 = k2 <;> simp [runningFor, h2, ih]

theorem coalInv_init {V : Type} : CoalInv (coalInit (V := V)) := by
  refine ⟨?_, ?_, ?_, ?_, ?_, ?_, ?_⟩ <;>
    simp [coalInit, runningFor, mlookup]

theorem coalInv_pres {V : Type} (s : CoalState V) (e : CoalEvent V)
    (s2 : CoalState V) (hI : CoalInv s) (hstep : coalStep s e = some s2) :
    CoalInv s2 := by
  cases e with
  | call cid key =>
      simp only [coalStep, Option.some.injEq] at hstep
      subst hstep
      unfold coalCall
      cases hsl : mlookup s.inFlight key with
      | some fid =>
          exact { run_slot := hI.run_slot, slot_lt := hI.slot_lt,
                  settled_lt := hI.settled_lt,
                  slot_not_settled := hI.slot_not_settled,
                  slot_inj := hI.slot_inj, settled_fn := hI.settled_fn,
                  deliv_settled := hI.deliv_settled }
      | none =>
          refine ⟨?_, ?_, ?_, ?_, ?_, ?_, ?_⟩
          · intro k2
            show runningFor (s.running ++ [(key, s.nextFid)]) k2 =
              (mlookup (minsert s.inFlight key s.nextFid) k2).elim []
                (fun fid => [fid])
            rw [runningFor_append, mlookup_minsert, hI.run_slot k2]
            by_cases hk : key = k2
            · subst hk
              rw [hsl]
              simp
            · simp [hk]
          · intro k2 fid2 hl
            rw [mlookup_minsert] at hl
            by_cases hk : key = k2
            · rw [if_pos hk] at hl
              cases hl
              exact Nat.lt_succ_self _
            · rw [if_neg hk] at hl
              exact Nat.lt_trans (hI.slot_lt k2 fid2 hl) (Nat.lt_succ_self _)
          · intro fid2 r hm
            exact Nat.lt_trans (hI.settled_lt fid2 r hm) (Nat.lt_succ_self _)
          · intro k2 fid2 hl r hm
            rw [mlookup_minsert] at hl
            by_cases hk : key = k2
            · rw [if_pos hk] at hl
              cases hl
              exact Nat.lt_irrefl _ (hI.settled_lt _ r hm)
            · rw [if_neg hk] at hl
              exact hI.slot_not_settled k2 fid2 hl r hm
          · intro k1 k2 fid2 hl1 hl2
            rw [mlookup_minsert] at hl1 hl2
            by_cases hk1 : key = k1
            · by_cases hk2 : key = k2
              · rw [← hk1, ← hk2]
              · rw [if_pos hk1] at hl1
                rw [if_neg hk2] at hl2
                cases hl1
                exact absurd (hI.slot_lt k2 _ hl2) (Nat.lt_irrefl _)
            · by_cases hk2 : key = k2
              · rw [if_neg hk1] at hl1
                rw [if_pos hk2] at hl2
                cases hl2
                exact absurd (hI.slot_lt k1 _ hl1) (Nat.lt_irrefl _)
              · rw [if_neg hk1] at hl1
                rw [if_neg hk2] at hl2
                exact hI.slot_inj k1 k2 fid2 hl1 hl2
          · exact hI.settled_fn
          · exact hI.deliv_settled
  | settle key fid r =>
      simp only [coalStep] at hstep
      unfold coalSettle at hstep
      cases hsl : mlookup s.inFlight key with
      | none => rw [hsl] at hstep; cases hstep
      | some f =>
          simp only [hsl] at hstep
          by_cases hf : f = fid
          · rw [if_pos hf] at hstep
            subst hf
            injection hstep with h2
            subst h2
            have hrun := hI.run_slot key
            rw [hsl] at hrun
            refine ⟨?_, ?_, ?_, ?_, ?_, ?_, ?_⟩
            · intro k2
              show runningFor (removeRun s.running key f) k2 =
                (mlookup (merase s.inFlight key) k2).elim [] (fun fid => [fid])
              rw [mlookup_merase]
              by_cases hk : key = k2
              · subst hk
                rw [runningFor_removeRun, hrun]
                simp
              · rw [runningFor_removeRun_other _ _ _ _ hk, hI.run_slot k2,
                  if_neg hk]
            · intro k2 fid2 hl
              rw [mlookup_merase] at hl
              by_cases hk : key = k2
              · rw [if_pos hk] at hl
                cases hl
              · rw [if_neg hk] at hl
                exact hI.slot_lt k2 fid2 hl
            · intro fid2 r2 hm
              rcases List.mem_append.1 hm with hm | hm
              · exact hI.settled_lt fid2 r2 hm
              · simp only [List.mem_singleton] at hm
                cases hm
                exact hI.slot_lt key f hsl
            · intro k2 fid2 hl r2 hm
              rw [mlookup_merase] at hl
              by_cases hk : key = k2
              · rw [if_pos hk] at hl
                cases hl
              · rw [if_neg hk] at hl
                rcases List.mem_append.1 hm with hm | hm
                · exact hI.slot_not_settled k2 fid2 hl r2 hm
                · simp only [List.mem_singleton, Prod.mk.injEq] at hm
                  exact hk (hI.slot_inj key k2 f hsl (hm.1 ▸ hl))
            · intro k1 k2 fid2 hl1 hl2
              rw [mlookup_merase] at hl1 hl2
              by_cases hk1 : key = k1
              · rw [if_pos hk1] at hl1
                cases hl1
              · by_cases hk2 : key = k2
                · rw [if_pos hk2] at hl2
                  cases hl2
                · rw [if_neg hk1] at hl1
                  rw [if_neg hk2] at hl2
                  exact hI.slot_inj k1 k2 fid2 hl1 hl2
            · intro fid2 r1 r2 hm1 hm2
              rcases List.mem_append.1 hm1 with hm1 | hm1 <;>
                rcases List.mem_append.1 hm2 with hm2 | hm2
              · exact hI.settled_fn fid2 r1 r2 hm1 hm2
              · simp only [List.mem_singleton, Prod.mk.injEq] at hm2
                exact absurd (hm2.1 ▸ hm1)
                  (hI.slot_not_settled key f hsl r1)
              · simp only [List.mem_singleton, Prod.mk.injEq] at hm1
                exact absurd (hm1.1 ▸ hm2)
                  ((hI.slot_not_settled key f hsl r2))
              · simp only [List.mem_singleton, Prod.mk.injEq] at hm1 hm2
                rw [hm1.2, hm2.2]
            · intro cid fid2 r2 hm
              rcases List.mem_append.1 hm with hm | hm
              · exact List.mem_append_left _ (hI.deliv_settled cid fid2 r2 hm)
              · rcases List.mem_map.1 hm with ⟨w, _, hw⟩
                cases hw
                exact List.mem_append_right _ (List.mem_singleton_self _)
          · rw [if_neg hf] at hstep
            cases hstep

-- ───────────────────────── claim C1 ─────────────────────────

/-- C1: single-flight coalescing in every reachable state of the
`RequestCoalescer`: (a) for every key at most one fetcher execution is
running at any instant; (b) every two results handed out for the same
execution — the originator's and any mid-flight joiner's — are the same
result (value or rejection); (c) a settle step (success or failure) deletes
the in-flight slot of the key, and a subsequent `coalesce` for that key
starts a fresh execution: it installs the next, never-settled execution
id. -/
theorem c1_single_flight_coalescing {V : Type} (evs : List (CoalEvent V))
    (s : CoalState V) (h : runSteps coalStep coalInit evs = some s) :
    (∀ key, (runningFor s.running key).length ≤ 1) ∧
    (∀ cid1 cid2 fid r1 r2, (cid1, fid, r1) ∈ s.deliveredLog →
      (cid2, fid, r2) ∈ s.deliveredLog → r1 = r2) ∧
    (∀ key fid r s2, coalStep s (.settle key fid r) = some s2 →
      mlookup s2.inFlight key = none ∧
      ∀ cid, mlookup (coalCall s2 cid key).inFlight key = some s2.nextFid ∧
        (key, s2.nextFid) ∈ (coalCall s2 cid key).running ∧
        ∀ r2, (s2.nextFid, r2) ∉ s2.settledLog) := by
  have hI : CoalInv s := runSteps_inv coalStep CoalInv
    (fun a e b hP hs => coalInv_pres a e b hP hs) evs coalInit s coalInv_init h
  refine ⟨?_, ?_, ?_⟩
  · intro key
    rw [hI.run_slot key]
    cases mlookup s.inFlight key <;> simp
  · intro cid1 cid2 fid r1 r2 h1 h2
    exact hI.settled_fn fid r1 r2 (hI.deliv_settled _ _ _ h1)
      (hI.deliv_settled _ _ _ h2)
  · intro key fid r s2 hstep
    have hI2 : CoalInv s2 := coalInv_pres s _ s2 hI hstep
    have hnone : mlookup s2.inFlight key = none := by
      simp only [coalStep] at hstep
      unfold coalSettle at hstep
      cases hsl : mlookup s.inFlight key with
      | none => rw [hsl] at hstep; cases hstep
      | some f =>
          simp only [hsl] at hstep
          by_cases hf : f = fid
          · rw [if_pos hf] at hstep
            injection hstep with h2
            rw [← h2]
            show mlookup (merase s.inFlight key) key = none
            rw [mlookup_merase]
            simp
          · rw [if_neg hf] at hstep
            cases hstep
    refine ⟨hnone, fun cid => ?_⟩
    unfold coalCall
    rw [hnone]
    refine ⟨?_, ?_, ?_⟩
    · show mlookup (minsert s2.inFlight key s2.nextFid) key = some s2.nextFid
      rw [mlookup_minsert]
      simp
    · show (key, s2.nextFid) ∈ s2.running ++ [(key, s2.nextFid)]
      simp
    · exact fun r2 hm => absurd (hI2.settled_lt _ r2 hm) (Nat.lt_irrefl _)

/-- Witness for C1 at a concrete input: the trace "caller 0 starts a fetch
for k, caller 1 joins mid-flight, the fetch settles with 42" reaches the
state where both callers were handed the settlement of execution 0, the
slot is empty and nothing runs. -/
theorem c1_single_flight_coalescing_witness :
    (FetchResult.ok 42 : FetchResult Nat) = FetchResult.ok 42 ∧
    (runningFor
        (⟨[], 1, [], [(0, .ok 42)], [], [(0, 0, .ok 42), (1, 0, .ok 42)]⟩ :
          CoalState Nat).running "k").length ≤ 1 :=
  ⟨(c1_single_flight_coalescing
      [CoalEvent.call 0 "k", CoalEvent.call 1 "k",
       CoalEvent.settle "k" 0 (.ok 42)]
      ⟨[], 1, [], [(0, .ok 42)], [], [(0, 0, .ok 42), (1, 0, .ok 42)]⟩
      (by decide)).2.1 0 1 0 (.ok 42) (.ok 42) (by decide) (by decide),
   (c1_single_flight_coalescing
      [CoalEvent.call 0 "k", CoalEvent.call 1 "k",
       CoalEvent.settle "k" 0 (.ok 42)]
      ⟨[], 1, [], [(0, .ok 42)], [], [(0, 0, .ok 42), (1, 0, .ok 42)]⟩
      (by decide)).1 "k"⟩

-- ───────────────────────── getOrSet lemmas ─────────────────────────

theorem cacheCoalesce_join {V : Type} (s : CacheSysState V) (cid : Nat)
    (key : String) (ttl : Nat) (mode : WaitMode) (f : Flight)
    (h : mlookup s.inFlight key = some f) :
    cacheCoalesce s cid key ttl mode =
      { s with waiters := s.waiters ++ [⟨cid, f.fid, mode⟩] } := by
  unfold cacheCoalesce
  rw [h]

theorem cacheCoalesce_start {V : Type} (s : CacheSysState V) (cid : Nat)
    (key : String) (ttl : Nat) (mode : WaitMode)
    (h : mlookup s.inFlight key = none) :
    cacheCoalesce s cid key ttl mode =
      { s with inFlight := minsert s.inFlight key ⟨s.nextFid, ttl⟩,
               running := s.running ++ [(key, s.nextFid)],
               waiters := s.waiters ++ [⟨cid, s.nextFid, mode⟩],
               nextFid := s.nextFid + 1 } := by
  unfold cacheCoalesce
  rw [h]

theorem cacheCoalesce_cache {V : Type} (s : CacheSysState V) (cid : Nat)
    (key : String) (ttl : Nat) (mode : WaitMode) :
    (cacheCoalesce s cid key ttl mode).cache = s.cache ∧
    (cacheCoalesce s cid key ttl mode).delivered = s.delivered := by
  unfold cacheCoalesce
  cases mlookup s.inFlight key <;> exact ⟨rfl, rfl⟩

-- ───────────────────────── claim C2 ─────────────────────────

/-- C2: `InMemoryCacheService.getOrSet` follows exactly the three-case
stale-while-revalidate algorithm.  Case 1: a fresh entry (now ≤ freshUntil)
is returned at once and nothing else changes — no factory runs.  Case 2: a
stale entry (freshUntil < now ≤ staleUntil) is returned at once, the cache
is untouched, and one coalesced background refresh is subscribed: it joins
the existing in-flight factory if there is one, else it starts exactly one
new factory execution; its subscription is `background`, so a later failed
settlement delivers nothing to it (swallowed — see the failure conjunct:
only `block` waiters receive the rejection, and the cache is untouched).
Case 3: otherwise the caller blocks on the coalesced factory (join or
start, `block` mode, no immediate delivery).  On successful settlement the
value is stored via `set` with the originating call's ttl at settlement
time and handed to every blocking waiter; on failure the rejection reaches
exactly the blocking waiters — all simultaneous ones. -/
theorem c2_getOrSet_three_cases {V : Type} (s : CacheSysState V) (cid : Nat)
    (key : String) (now ttl : Nat) :
    (∀ e, mlookup s.cache.store key = some e → now ≤ e.freshUntil →
      getOrSetStep s cid key now ttl =
        { s with delivered := s.delivered ++ [⟨cid, none, .ok e.value⟩] }) ∧
    (∀ e, mlookup s.cache.store key = some e → e.freshUntil < now →
      now ≤ e.staleUntil →
      (getOrSetStep s cid key now ttl).cache = s.cache ∧
      (getOrSetStep s cid key now ttl).delivered =
        s.delivered ++ [⟨cid, none, .ok e.value⟩] ∧
      (∀ f, mlookup s.inFlight key = some f →
        (getOrSetStep s cid key now ttl).inFlight = s.inFlight ∧
        (getOrSetStep s cid key now ttl).running = s.running ∧
        (getOrSetStep s cid key now ttl).waiters =
          s.waiters ++ [⟨cid, f.fid, .background⟩]) ∧
      (mlookup s.inFlight key = none →
        (getOrSetStep s cid key now ttl).inFlight =
          minsert s.inFlight key ⟨s.nextFid, ttl⟩ ∧
        (getOrSetStep s cid key now ttl).running =
          s.running ++ [(key, s.nextFid)] ∧
        (getOrSetStep s cid key now ttl).waiters =
          s.waiters ++ [⟨cid, s.nextFid, .background⟩])) ∧
    ((mlookup s.cache.store key = none ∨
      (∃ e, mlookup s.cache.store key = some e ∧ e.freshUntil < now ∧
        e.staleUntil < now)) →
      (getOrSetStep s cid key now ttl).delivered = s.delivered ∧
      (∀ f, mlookup s.inFlight key = some f →
        getOrSetStep s cid key now ttl =
          { s with waiters := s.waiters ++ [⟨cid, f.fid, .block⟩] }) ∧
      (mlookup s.inFlight key = none →
        getOrSetStep s cid key now ttl =
          { s with inFlight := minsert s.inFlight key ⟨s.nextFid, ttl⟩,
                   running := s.running ++ [(key, s.nextFid)],
                   waiters := s.waiters ++ [⟨cid, s.nextFid, .block⟩],
                   nextFid := s.nextFid + 1 })) ∧
    (∀ f v tset, mlookup s.inFlight key = some f →
      cacheSettle s key f.fid (.ok v) tset =
        some { cache := s.cache.set tset key v f.ttlSeconds,
               inFlight := merase s.inFlight key,
               nextFid := s.nextFid,
               running := removeRun s.running key f.fid,
               waiters := cacheWaitersOff s.waiters f.fid,
               delivered := s.delivered ++
                 (blockWaitersOn s.waiters f.fid).map
                   (fun w => ⟨w.cid, some f.fid, .ok v⟩) }) ∧
    (∀ f err tset, mlookup s.inFlight key = some f →
      cacheSettle s key f.fid (.fail err) tset =
        some { cache := s.cache,
               inFlight := merase s.inFlight key,
               nextFid := s.nextFid,
               running := removeRun s.running key f.fid,
               waiters := cacheWaitersOff s.waiters f.fid,
               delivered := s.delivered ++
                 (blockWaitersOn s.waiters f.fid).map
                   (fun w => ⟨w.cid, some f.fid, .fail err⟩) }) := by
  refine ⟨?_, ?_, ?_, ?_, ?_⟩
  · intro e hl hfresh
    unfold getOrSetStep
    simp only [hl]
    rw [if_pos hfresh]
  · intro e hl hfresh hstale
    unfold getOrSetStep
    simp only [hl]
    rw [if_neg (by omega), if_pos hstale]
    have hcd := cacheCoalesce_cache s cid key ttl .background
    refine ⟨hcd.1, ?_, ?_, ?_⟩
    · show (cacheCoalesce s cid key ttl .background).delivered ++
        [⟨cid, none, .ok e.value⟩] = s.delivered ++ [⟨cid, none, .ok e.value⟩]
      rw [hcd.2]
    · intro f hf
      rw [cacheCoalesce_join s cid key ttl .background f hf]
      exact ⟨rfl, rfl, rfl⟩
    · intro hf
      rw [cacheCoalesce_start s cid key ttl .background hf]
      exact ⟨rfl, rfl, rfl⟩
  · intro hcase
    have hred : getOrSetStep s cid key now ttl =
        cacheCoalesce s cid key ttl .block := by
      unfold getOrSetStep
      rcases hcase with hl | ⟨e, hl, hfresh, hstale⟩
      · simp only [hl]
      · simp only [hl]
        rw [if_neg (by omega), if_neg (by omega)]
    rw [hred]
    refine ⟨(cacheCoalesce_cache s cid key ttl .block).2, ?_, ?_⟩
    · intro f hf
      exact cacheCoalesce_join s cid key ttl .block f hf
    · intro hf
      exact cacheCoalesce_start s cid key ttl .block hf
  · intro f v tset hf
    unfold cacheSettle
    simp only [hf]
    rfl
  · intro f err tset hf
    unfold cacheSettle
    simp only [hf]
    rfl

/-- Witness for C2 at concrete inputs: a fresh hit is served from the store
with no factory, and a failed settlement leaves the cache untouched while
delivering the rejection to the blocking waiter only (the background waiter
swallows it). -/
theorem c2_getOrSet_three_cases_witness :
    getOrSetStep
        (⟨⟨[("k", ⟨7, 10, 20⟩)]⟩, [], 0, [], [], []⟩ : CacheSysState Nat)
        3 "k" 5 9 =
      ⟨⟨[("k", ⟨7, 10, 20⟩)]⟩, [], 0, [], [], [⟨3, none, .ok 7⟩]⟩ ∧
    cacheSettle
        (⟨⟨[]⟩, [("k", ⟨0, 9⟩)], 1, [("k", 0)],
          [⟨5, 0, .block⟩, ⟨6, 0, .background⟩], []⟩ : CacheSysState Nat)
        "k" 0 (.fail 1) 100 =
      some ⟨⟨[]⟩, [], 1, [], [], [⟨5, some 0, .fail 1⟩]⟩ :=
  ⟨(c2_getOrSet_three_cases
      (⟨⟨[("k", ⟨7, 10, 20⟩)]⟩, [], 0, [], [], []⟩ : CacheSysState Nat)
      3 "k" 5 9).1 ⟨7, 10, 20⟩ (by decide) (by decide),
   (c2_getOrSet_three_cases
      (⟨⟨[]⟩, [("k", ⟨0, 9⟩)], 1, [("k", 0)],
        [⟨5, 0, .block⟩, ⟨6, 0, .background⟩], []⟩ : CacheSysState Nat)
      0 "k" 0 0).2.2.2.2 ⟨0, 9⟩ 1 100 (by decide)⟩

-- ───────────────────────── claim C8 ─────────────────────────

/-- C8 counterexample: the claim "concurrent getOrSet callers that miss the
external cache for the same key still collapse into a single factory
execution per key" is false at a concrete input.  Two callers that both
miss key k in an empty Redis-backed cache each start their own factory —
`RedisCacheService.getOrSet` has no in-flight map — so two factory
executions for k are in flight at once. -/
theorem c8_redis_coalescing_counterexample :
    runSteps redisStep (redisInit (V := Nat))
      [RedisEvent.call 0 "k" 0 5, RedisEvent.call 1 "k" 0 5] =
      some ⟨[], [(0, "k", 5), (1, "k", 5)], []⟩ ∧
    1 < factoriesFor [(0, "k", 5), (1, "k", 5)] "k" :=
  ⟨by decide, by decide⟩

/-- C8 amended: with the external (Redis-backed) cache service,
stale-while-revalidate degrades to plain TTL — after `setex` at t0 with
ttl seconds, `get` returns the value exactly while now < t0 + ttl·1000 and
null afterwards, with no stale window — and `getOrSet` performs no request
coalescing at all: every caller that misses starts its own factory
execution (concurrent missing callers for the same key thus run concurrent
factories; request coalescing exists only process-locally in the in-memory
cache service and the schedulers' RequestCoalescer), while a caller that
hits is served from the backend without a factory. -/
theorem c8_redis_ttl_only_no_coalescing {V : Type} (s : RedisState V)
    (cid : Nat) (key : String) (now t0 ttl t : Nat) (v : V) :
    (redisGet (redisSetex s t0 key v ttl) t key =
      if t < t0 + ttl * 1000 then some v else none) ∧
    (redisGet s now key = none →
      redisCall s cid key now ttl =
        { s with factRunning := s.factRunning ++ [(cid, key, ttl)] }) ∧
    (∀ w, redisGet s now key = some w →
      redisCall s cid key now ttl =
        { s with delivered := s.delivered ++ [(cid, .ok w)] }) := by
  refine ⟨?_, ?_, ?_⟩
  · have hl : mlookup (redisSetex s t0 key v ttl).kv key =
        some ⟨v, t0 + ttl * 1000⟩ := by
      simp [redisSetex, mlookup_minsert]
    simp [redisGet, hl]
  · intro h
    unfold redisCall
    rw [h]
  · intro w h
    unfold redisCall
    rw [h]

/-- Witness for C8 amended at concrete inputs: after `setex` with ttl 5 s
the value is served at 4 999 ms, and a missing caller starts its own
factory. -/
theorem c8_redis_ttl_only_no_coalescing_witness :
    redisGet (redisSetex (⟨[], [], []⟩ : RedisState Nat) 0 "k" 7 5) 4999 "k" =
      (if 4999 < 0 + 5 * 1000 then some 7 else none) ∧
    redisCall (⟨[], [], []⟩ : RedisState Nat) 0 "k" 0 5 =
      ⟨[], [(0, "k", 5)], []⟩ :=
  ⟨(c8_redis_ttl_only_no_coalescing (⟨[], [], []⟩ : RedisState Nat)
      0 "k" 0 0 5 4999 7).1,
   (c8_redis_ttl_only_no_coalescing (⟨[], [], []⟩ : RedisState Nat)
      0 "k" 0 0 5 4999 7).2.1 (by decide)⟩
